import Mathlib

/-!
Verification of the message-stream reconciliation core of agent-chat-ui
(src/providers/Stream.tsx). The embedding models the Conversation Store as a
list of messages, the token-delta accumulator, the phase-boundary snapshot
merger (lines 175-188), and the authoritative sync merger (lines 231-250).
-/

namespace AgentChat

/-- An element of a message content array. LangChain structured blocks are
JavaScript objects (modelled opaquely by a natural-number tag, whose default
string conversion is "[object Object]"); a plain string element arises when
the accumulator boxes a prior string content into an array (Stream.tsx
line 143). -/
inductive Block where
  | obj : Nat → Block
  | txt : String → Block
deriving DecidableEq

/-- Message content: either a plain string or an array of blocks. The source
distinguishes exactly these two shapes via typeof and Array.isArray
(Stream.tsx lines 133-145). -/
inductive Content where
  | str : String → Content
  | blocks : List Block → Content
deriving DecidableEq

/-- True when the content is a block array (a sequence), false for a string. -/
def isBlocksContent : Content → Bool
  | Content.blocks _ => true
  | Content.str _ => false

/-- One conversation message. The reconciliation core only reads the id and
the content; other fields are passed through opaquely and omitted. A
JavaScript falsy id (absent or the empty string) is modelled as "". -/
structure Message where
  id : String
  content : Content
deriving DecidableEq

/-- JavaScript string conversion of a block: String(s) for a string element,
"[object Object]" for a plain object. -/
def blockToStr : Block → String
  | Block.txt s => s
  | Block.obj _ => "[object Object]"

/-- JavaScript string conversion of a content value, as forced by the
expression on Stream.tsx line 136, which adds a string fragment onto the
existing content with +. A string converts to itself (the or-default to ""
on line 136 changes nothing, because the only falsy content value, the empty
string, already converts to ""); an array converts via
Array.prototype.toString, joining the string forms of its elements with
commas. -/
def contentToStr : Content → String
  | Content.str s => s
  | Content.blocks bs => String.intercalate "," (bs.map blockToStr)

/-- Content merge applied when a delta arrives for an existing message
(Stream.tsx lines 133-145): a string fragment is appended with JavaScript +,
which string-coerces the existing content first; an array fragment is
concatenated onto the existing array, boxing a prior non-array content as a
single element first. -/
def mergeContent (existing : Content) (chunkContent : Content) : Content :=
  match chunkContent with
  | Content.str f => Content.str (contentToStr existing ++ f)
  | Content.blocks frag =>
      match existing with
      | Content.blocks bs => Content.blocks (bs ++ frag)
      | Content.str s => Content.blocks (Block.txt s :: frag)

/-- JavaScript Array.prototype.findIndex: index of the first element
satisfying the predicate, or -1 when none does (Stream.tsx line 124). -/
def findIndex (p : Message → Bool) : List Message → Int
  | [] => -1
  | m :: rest =>
      if p m then 0
      else
        let r := findIndex p rest
        if r = -1 then -1 else r + 1

/-- The Token Accumulator body (Stream.tsx lines 123-159): look up the
message by id with findIndex; when present, replace that entry with one whose
content has the fragment merged in; when absent, append a new message built
from the chunk id and content. -/
def accumulateDelta (prevMessages : List Message) (chunkId : String)
    (chunkContent : Content) : List Message :=
  let existingMessageIndex := findIndex (fun msg => msg.id == chunkId) prevMessages
  if existingMessageIndex != -1 then
    match prevMessages.get? existingMessageIndex.toNat with
    | some existingMessage =>
        prevMessages.set existingMessageIndex.toNat
          { existingMessage with
              content := mergeContent existingMessage.content chunkContent }
    | none => prevMessages
  else
    prevMessages ++ [{ id := chunkId, content := chunkContent }]

/-- A token-delta chunk: an id (falsy modelled as "") and an optional content
(none models an absent, undefined or null content field). -/
structure Chunk where
  id : String
  content : Option Content
deriving DecidableEq

/-- The stream-delta branch of onLangChainEvent (Stream.tsx lines 110-161):
requires a chunk with a truthy id, then a content that is neither
undefined, null nor the empty string, and only then runs the accumulator.
Note that an empty block array passes this guard, because the strict
comparison on line 121 only rules out the empty string. -/
def onStreamEvent (prevMessages : List Message) (chunk : Option Chunk) :
    List Message :=
  match chunk with
  | none => prevMessages
  | some ch =>
      if ch.id = "" then prevMessages
      else
        match ch.content with
        | none => prevMessages
        | some c =>
            if c = Content.str "" then prevMessages
            else accumulateDelta prevMessages ch.id c

/-- The Snapshot Merger (Stream.tsx lines 175-188): filter the incoming list
to messages with a truthy id not already present in the store, and append
them; when nothing new remains, return the store unchanged. -/
def snapshotMerge (prevMessages newMessages : List Message) : List Message :=
  let existingIds := prevMessages.map (fun msg => msg.id)
  let uniqueNewMessages :=
    newMessages.filter (fun msg => msg.id != "" && !(existingIds.contains msg.id))
  if uniqueNewMessages.length > 0 then prevMessages ++ uniqueNewMessages
  else prevMessages

/-- The Authoritative Sync Merger (Stream.tsx lines 231-250): same
filter-then-append body as the Snapshot Merger, applied to the external
stream message list. -/
def authoritativeSyncMerge (prevMessages streamMessages : List Message) :
    List Message :=
  let existingIds := prevMessages.map (fun msg => msg.id)
  let newMessagesFromStream :=
    streamMessages.filter (fun msg => msg.id != "" && !(existingIds.contains msg.id))
  if newMessagesFromStream.length > 0 then prevMessages ++ newMessagesFromStream
  else prevMessages

/-- A classified LangChain lifecycle event, as branched on by
onLangChainEvent (Stream.tsx lines 107-197): a stream delta (on_chain_stream
or on_chat_model_stream) with its optional chunk; a phase-boundary end
(on_chain_end, on_tool_end or on_chat_model_end) with its output message
list when present and an array; a phase-boundary start; or an unrecognized
event name. -/
inductive LCEvent where
  | streamEvt : Option Chunk → LCEvent
  | endEvt : Option (List Message) → LCEvent
  | startEvt : LCEvent
  | unknownEvt : LCEvent

/-- The onLangChainEvent handler (Stream.tsx lines 107-197) as a transition
on the Conversation Store: deltas are accumulated, phase-boundary-end
snapshots are merged, start and unrecognized events leave the store
unchanged. -/
def onLangChainEvent (prevMessages : List Message) (e : LCEvent) : List Message :=
  match e with
  | LCEvent.streamEvt ch => onStreamEvent prevMessages ch
  | LCEvent.endEvt none => prevMessages
  | LCEvent.endEvt (some out) => snapshotMerge prevMessages out
  | LCEvent.startEvt => prevMessages
  | LCEvent.unknownEvt => prevMessages

/-- An incoming event for the Conversation Store: either a LangChain
lifecycle event or an authoritative-sync update carrying the external
message list (the effect on Stream.tsx lines 224-254). -/
inductive SessionEvent where
  | langchain : LCEvent → SessionEvent
  | sync : List Message → SessionEvent

/-- One step of the session: dispatch an incoming event to the handler that
the source runs for it. -/
def sessionStep (prevMessages : List Message) (e : SessionEvent) : List Message :=
  match e with
  | SessionEvent.langchain le => onLangChainEvent prevMessages le
  | SessionEvent.sync streamMessages => authoritativeSyncMerge prevMessages streamMessages

/-- The merge policy exactly as the specification words it for claim C9:
filter the incoming list to ids not already present in the store and append
the filtered list. Written from the words of the spec (it carries no
truthy-id requirement), to be compared with the two mergers above. -/
def specDescribedMerge (prev incoming : List Message) : List Message :=
  prev ++ incoming.filter (fun msg => !((prev.map (fun m => m.id)).contains msg.id))

/-! ## Helper lemmas -/

lemma find?_append_left {p : Message → Bool} {s : List Message} {m : Message}
    (t : List Message) (h : s.find? p = some m) : (s ++ t).find? p = some m := by
  rw [List.find?_append, h]
  rfl

lemma findIndex_eq_neg_one (p : Message → Bool) (s : List Message)
    (h : ∀ m ∈ s, p m = false) : findIndex p s = -1 := by
  induction s with
  | nil => rfl
  | cons a rest ih =>
      simp [findIndex, h a (by simp), ih (fun m hm => h m (by simp [hm]))]

lemma findIndex_append_first (p : Message → Bool) (pre post : List Message)
    (m : Message) (hpre : ∀ m2 ∈ pre, p m2 = false) (hm : p m = true) :
    findIndex p (pre ++ m :: post) = (pre.length : Int) := by
  induction pre with
  | nil => simp [findIndex, hm]
  | cons a rest ih =>
      have ha : p a = false := hpre a (by simp)
      have ihh : findIndex p (rest ++ m :: post) = (rest.length : Int) :=
        ih (fun m2 hm2 => hpre m2 (by simp [hm2]))
      have hne : ((rest.length : Int)) ≠ -1 := by omega
      simp [findIndex, ha, ihh, hne]

lemma get?_append_mid (pre post : List Message) (m : Message) :
    (pre ++ m :: post).get? pre.length = some m := by
  induction pre with
  | nil => rfl
  | cons a rest ih => simpa using ih

lemma set_append_mid (pre post : List Message) (m m2 : Message) :
    (pre ++ m :: post).set pre.length m2 = pre ++ m2 :: post := by
  induction pre with
  | nil => rfl
  | cons a rest ih => simp [ih]

lemma accumulateDelta_not_found (s : List Message) (x : String) (c : Content)
    (h : ∀ m ∈ s, (m.id == x) = false) :
    accumulateDelta s x c = s ++ [⟨x, c⟩] := by
  have hidx := findIndex_eq_neg_one (fun msg => msg.id == x) s h
  simp [accumulateDelta, hidx]

lemma accumulateDelta_found (pre post : List Message) (x : String) (c : Content)
    (mx : Message) (hpre : ∀ m ∈ pre, (m.id == x) = false)
    (hmx : (mx.id == x) = true) :
    accumulateDelta (pre ++ mx :: post) x c
      = pre ++ { mx with content := mergeContent mx.content c } :: post := by
  have hidx : findIndex (fun msg => msg.id == x) (pre ++ mx :: post) = (pre.length : Int) :=
    findIndex_append_first _ pre post mx hpre hmx
  have hne : ((pre.length : Int) != -1) = true := by
    simp only [bne_iff_ne, ne_eq]
    omega
  simp only [accumulateDelta, hidx, hne, if_true, Int.toNat_natCast,
    get?_append_mid, set_append_mid]

lemma set_of_get?_eq {α : Type} (l : List α) (i : Nat) (a : α)
    (h : l.get? i = some a) : l.set i a = l := by
  induction l generalizing i with
  | nil => simp at h
  | cons b rest ih =>
      cases i with
      | zero =>
          simp only [List.get?] at h
          simp [(Option.some_inj.mp h).symm]
      | succ j =>
          simp only [List.get?] at h
          simp [ih j h]

lemma get?_map_id (s : List Message) (i : Nat) :
    (s.map (fun m => m.id)).get? i = (s.get? i).map (fun m => m.id) := by
  simp [List.get?_eq_getElem?, List.getElem?_map]

lemma findIndex_spec (p : Message → Bool) (s : List Message) :
    findIndex p s = -1 ∨
    ∃ i : Nat, findIndex p s = (i : Int) ∧ ∃ m, s.get? i = some m ∧ p m = true := by
  induction s with
  | nil => exact Or.inl rfl
  | cons a rest ih =>
      by_cases ha : p a = true
      · exact Or.inr ⟨0, by simp [findIndex, ha], a, rfl, ha⟩
      · have ha2 : p a = false := by simpa using ha
        rcases ih with h | ⟨i, hi, m, hget, hpm⟩
        · left
          simp [findIndex, ha2, h]
        · right
          refine ⟨i + 1, ?_, m, by simpa using hget, hpm⟩
          have hne : ((i : Int)) ≠ -1 := by omega
          simp [findIndex, ha2, hi, hne]

lemma accumulateDelta_found_set (s : List Message) (x : String) (c : Content)
    (i : Nat) (m : Message)
    (hidx : findIndex (fun msg => msg.id == x) s = (i : Int))
    (hget : s.get? i = some m) :
    accumulateDelta s x c = s.set i { m with content := mergeContent m.content c } := by
  have hne : (((i : Int)) != -1) = true := by
    simp only [bne_iff_ne, ne_eq]
    omega
  simp only [accumulateDelta, hidx, hne, if_true, Int.toNat_natCast, hget]

lemma accumulateDelta_cases (s : List Message) (x : String) (c : Content) :
    accumulateDelta s x c = s ++ [⟨x, c⟩] ∨
    ∃ i m, s.get? i = some m ∧
      accumulateDelta s x c = s.set i { m with content := mergeContent m.content c } := by
  rcases findIndex_spec (fun msg => msg.id == x) s with h | ⟨i, hi, m, hget, _⟩
  · left
    simp [accumulateDelta, h]
  · exact Or.inr ⟨i, m, hget, accumulateDelta_found_set s x c i m hi hget⟩

lemma onStreamEvent_cases (s : List Message) (ch : Option Chunk) :
    onStreamEvent s ch = s ∨
    ∃ x c, x ≠ "" ∧ onStreamEvent s ch = accumulateDelta s x c := by
  cases ch with
  | none => exact Or.inl rfl
  | some c =>
      by_cases hid : c.id = ""
      · left
        simp [onStreamEvent, hid]
      · cases hcc : c.content with
        | none =>
            left
            simp [onStreamEvent, hid, hcc]
        | some cc =>
            by_cases hstr : cc = Content.str ""
            · left
              simp [onStreamEvent, hid, hcc, hstr]
            · exact Or.inr ⟨c.id, cc, hid, by simp [onStreamEvent, hid, hcc, hstr]⟩

lemma snapshotMerge_eq_append (s l : List Message) :
    snapshotMerge s l
      = s ++ l.filter
          (fun msg => msg.id != "" && !((s.map (fun m => m.id)).contains msg.id)) := by
  simp only [snapshotMerge]
  split
  · rfl
  · rename_i hlen
    have h0 : (l.filter
        (fun msg => msg.id != "" && !((s.map (fun m => m.id)).contains msg.id))).length = 0 := by
      omega
    rw [List.length_eq_zero.mp h0, List.append_nil]

lemma authSync_eq_snapshot (prev l : List Message) :
    authoritativeSyncMerge prev l = snapshotMerge prev l := rfl

lemma snapshotMerge_grows (s l : List Message) : s <+: snapshotMerge s l := by
  rw [snapshotMerge_eq_append]
  exact List.prefix_append s _

lemma contains_ids_iff (t : List Message) (y : String) :
    ((t.map (fun m => m.id)).contains y) = true ↔ ∃ m ∈ t, m.id = y := by
  simp [List.contains, List.elem_iff, List.mem_map]

lemma mem_merge_filter_id_ne {s l : List Message} {m : Message}
    (h : m ∈ l.filter
        (fun msg => msg.id != "" && !((s.map (fun m2 => m2.id)).contains msg.id))) :
    m.id ≠ "" := by
  have hp := (List.mem_filter.mp h).2
  exact bne_iff_ne.mp (Bool.and_elim_left hp)

/-! ## Claims -/

/-- Claim C1: first-writer-wins for message content. Whatever entry a lookup
by id finds in the store before a phase-boundary snapshot merge (for example
one built by delta accumulation), the same lookup finds the identical entry,
content included, after the merge: the snapshot never overwrites an existing
entry. -/
theorem snapshot_first_writer_wins (s l : List Message) (x : String) (m : Message)
    (h : s.find? (fun msg => msg.id == x) = some m) :
    (snapshotMerge s l).find? (fun msg => msg.id == x) = some m := by
  simp only [snapshotMerge]
  split
  · exact find?_append_left _ h
  · exact h

/-- Witness for C1 at the concrete inputs of the spec: id X first written by
a delta with content "He", then a snapshot arrives with complete content
"Hello"; the stored content for X is still "He". -/
theorem snapshot_first_writer_wins_witness :
    (snapshotMerge
        (onLangChainEvent [] (LCEvent.streamEvt (some ⟨"X", some (Content.str "He")⟩)))
        [⟨"X", Content.str "Hello"⟩]).find? (fun msg => msg.id == "X")
      = some ⟨"X", Content.str "He"⟩ :=
  snapshot_first_writer_wins _ [⟨"X", Content.str "Hello"⟩] "X"
    ⟨"X", Content.str "He"⟩ (by decide)

/-- Claim C2: end-to-end scenario. From the empty store, deltas (m1, "Hi")
and (m1, " there") followed by a phase-boundary-end snapshot carrying m1
(complete) and m2 yield exactly two entries, m1 with the delta-accumulated
content "Hi there" and m2 with "done", in that order. -/
theorem end_to_end_scenario :
    List.foldl sessionStep []
      [SessionEvent.langchain (LCEvent.streamEvt (some ⟨"m1", some (Content.str "Hi")⟩)),
       SessionEvent.langchain (LCEvent.streamEvt (some ⟨"m1", some (Content.str " there")⟩)),
       SessionEvent.langchain (LCEvent.endEvt (some
         [⟨"m1", Content.str "Hi there"⟩, ⟨"m2", Content.str "done"⟩]))]
    = [⟨"m1", Content.str "Hi there"⟩, ⟨"m2", Content.str "done"⟩] := by decide

/-- Claim C3: content-type merge correctness of the Token Accumulator. For a
new message id, two string fragments accumulate to their concatenation, and
two one-block array fragments accumulate to the two-element block array. -/
theorem content_type_merge (x f1 f2 : String) (a b : Block)
    (hx : x ≠ "") (h1 : f1 ≠ "") (h2 : f2 ≠ "") :
    List.foldl sessionStep []
        [SessionEvent.langchain (LCEvent.streamEvt (some ⟨x, some (Content.str f1)⟩)),
         SessionEvent.langchain (LCEvent.streamEvt (some ⟨x, some (Content.str f2)⟩))]
      = [⟨x, Content.str (f1 ++ f2)⟩]
    ∧ List.foldl sessionStep []
        [SessionEvent.langchain (LCEvent.streamEvt (some ⟨x, some (Content.blocks [a])⟩)),
         SessionEvent.langchain (LCEvent.streamEvt (some ⟨x, some (Content.blocks [b])⟩))]
      = [⟨x, Content.blocks [a, b]⟩] := by
  constructor
  · simp [List.foldl, sessionStep, onLangChainEvent, onStreamEvent, hx, h1, h2,
      accumulateDelta, findIndex, mergeContent, contentToStr]
  · simp [List.foldl, sessionStep, onLangChainEvent, onStreamEvent, hx,
      accumulateDelta, findIndex, mergeContent, contentToStr]

/-- Witness for C3: accumulating "He" then "llo" for the fresh id "a" yields
"Hello", and accumulating two one-block arrays yields the two-block array. -/
theorem content_type_merge_witness :
    List.foldl sessionStep []
        [SessionEvent.langchain (LCEvent.streamEvt (some ⟨"a", some (Content.str "He")⟩)),
         SessionEvent.langchain (LCEvent.streamEvt (some ⟨"a", some (Content.str "llo")⟩))]
      = [⟨"a", Content.str ("He" ++ "llo")⟩]
    ∧ List.foldl sessionStep []
        [SessionEvent.langchain (LCEvent.streamEvt (some ⟨"a", some (Content.blocks [Block.obj 1])⟩)),
         SessionEvent.langchain (LCEvent.streamEvt (some ⟨"a", some (Content.blocks [Block.obj 2])⟩))]
      = [⟨"a", Content.blocks [Block.obj 1, Block.obj 2]⟩] :=
  content_type_merge "a" "He" "llo" (Block.obj 1) (Block.obj 2)
    (by decide) (by decide) (by decide)

/-- Claim C4 counterexample: a string fragment arriving for a message whose
existing content is a block array does not produce a sequence. At the
concrete input, the store holds m1 with content the one-block array and the
delta carries the string "He"; the result content is the flat string
"[object Object]He" obtained by JavaScript string coercion, not a block
array. -/
theorem string_onto_blocks_counterexample :
    onLangChainEvent [⟨"m1", Content.blocks [Block.obj 0]⟩]
        (LCEvent.streamEvt (some ⟨"m1", some (Content.str "He")⟩))
      = [⟨"m1", Content.str "[object Object]He"⟩]
    ∧ isBlocksContent (Content.str "[object Object]He") = false := by decide

/-- Claim C4 as amended: when a string fragment arrives for a message id
already in the store whose existing content is a block array, the
accumulator coerces the prior content to its JavaScript string form and
concatenates the fragment onto it, so the result is a flat string, not a
sequence. -/
theorem string_onto_blocks_coerces (pre post : List Message) (x f : String)
    (bs : List Block) (hx : x ≠ "") (hf : f ≠ "")
    (hpre : ∀ m ∈ pre, m.id ≠ x) :
    onLangChainEvent (pre ++ ⟨x, Content.blocks bs⟩ :: post)
        (LCEvent.streamEvt (some ⟨x, some (Content.str f)⟩))
      = pre ++ ⟨x, Content.str (contentToStr (Content.blocks bs) ++ f)⟩ :: post
    ∧ isBlocksContent (Content.str (contentToStr (Content.blocks bs) ++ f)) = false := by
  refine ⟨?_, rfl⟩
  have hpre2 : ∀ m ∈ pre, (m.id == x) = false := fun m hm => by
    simpa using hpre m hm
  have hacc := accumulateDelta_found pre post x (Content.str f)
    ⟨x, Content.blocks bs⟩ hpre2 (by simp)
  simp [onLangChainEvent, onStreamEvent, hx, hf, hacc, mergeContent]

/-- Witness for the amended C4 at a concrete input: with one unrelated
message before it, m1 with the one-block array receives the string "He" and
ends up with the coerced flat string content. -/
theorem string_onto_blocks_coerces_witness :
    onLangChainEvent [⟨"p", Content.str "q"⟩, ⟨"m1", Content.blocks [Block.obj 0]⟩]
        (LCEvent.streamEvt (some ⟨"m1", some (Content.str "He")⟩))
      = [⟨"p", Content.str "q"⟩,
         ⟨"m1", Content.str (contentToStr (Content.blocks [Block.obj 0]) ++ "He")⟩]
    ∧ isBlocksContent
        (Content.str (contentToStr (Content.blocks [Block.obj 0]) ++ "He")) = false :=
  string_onto_blocks_coerces [⟨"p", Content.str "q"⟩] [] "m1" "He" [Block.obj 0]
    (by decide) (by decide) (by decide)

/-- Claim C5 counterexample: an empty block array is not a no-op. From the
empty store, a delta whose fragment is the empty block array passes the
guard (the strict comparison only rules out the empty string) and creates a
new entry, so the store changes. -/
theorem empty_array_delta_not_noop :
    onLangChainEvent [] (LCEvent.streamEvt (some ⟨"m1", some (Content.blocks [])⟩))
      = [⟨"m1", Content.blocks []⟩]
    ∧ onLangChainEvent [] (LCEvent.streamEvt (some ⟨"m1", some (Content.blocks [])⟩))
        ≠ [] := by decide

/-- Claim C5 as amended: a delta whose fragment is absent (undefined or
null), or the empty string, or whose chunk is missing entirely, leaves the
Conversation Store unchanged; an empty block array, in contrast, is not
treated as empty. -/
theorem empty_or_absent_delta_noop (prev : List Message) (ch : Option Chunk)
    (h : ch = none ∨ ∃ c : Chunk, ch = some c ∧
      (c.content = none ∨ c.content = some (Content.str ""))) :
    onLangChainEvent prev (LCEvent.streamEvt ch) = prev := by
  rcases h with h | ⟨c, rfl, hc⟩
  · rw [h]
    rfl
  · rcases hc with hc | hc <;> simp [onLangChainEvent, onStreamEvent, hc]

/-- Witness for the amended C5: a delta for id m1 carrying the empty string
leaves a one-entry store untouched. -/
theorem empty_or_absent_delta_noop_witness :
    onLangChainEvent [⟨"a", Content.str "b"⟩]
        (LCEvent.streamEvt (some ⟨"m1", some (Content.str "")⟩))
      = [⟨"a", Content.str "b"⟩] :=
  empty_or_absent_delta_noop _ _ (Or.inr ⟨_, rfl, Or.inr rfl⟩)

/-- Claim C7: duplicate delta delivery is not deduplicated. For the store
holding m1 with content "A", applying the delta (m1, "x") once yields "Ax",
and applying the identical delta a second time appends again, yielding
"Axx": delta application is not idempotent. -/
theorem duplicate_delta_double_applies :
    sessionStep (sessionStep [⟨"m1", Content.str "A"⟩]
        (SessionEvent.langchain (LCEvent.streamEvt (some ⟨"m1", some (Content.str "x")⟩))))
        (SessionEvent.langchain (LCEvent.streamEvt (some ⟨"m1", some (Content.str "x")⟩)))
      = [⟨"m1", Content.str "Axx"⟩]
    ∧ sessionStep [⟨"m1", Content.str "A"⟩]
        (SessionEvent.langchain (LCEvent.streamEvt (some ⟨"m1", some (Content.str "x")⟩)))
      = [⟨"m1", Content.str "Ax"⟩]
    ∧ Content.str "Axx" ≠ Content.str "Ax" := by decide

/-- Claim C6: idempotent union by id. Merging the same snapshot list twice
in succession yields exactly the same Conversation Store as merging it
once. -/
theorem snapshot_merge_idempotent (s l : List Message) :
    snapshotMerge (snapshotMerge s l) l = snapshotMerge s l := by
  rw [snapshotMerge_eq_append (snapshotMerge s l) l]
  have hnil : l.filter
      (fun msg => msg.id != "" &&
        !(((snapshotMerge s l).map (fun m => m.id)).contains msg.id)) = [] := by
    rw [List.filter_eq_nil_iff]
    intro m hm
    by_cases hid : m.id = ""
    · simp [hid]
    · by_cases hc : ∃ m2 ∈ s, m2.id = m.id
      · rcases hc with ⟨m2, hm2, he⟩
        simp
        exact fun _ => ⟨m2, (snapshotMerge_grows s l).subset hm2, he⟩
      · have hmemfilter : m ∈ l.filter
            (fun msg => msg.id != "" && !((s.map (fun m2 => m2.id)).contains msg.id)) := by
          rw [List.mem_filter]
          refine ⟨hm, ?_⟩
          simp [hid]
          intro x hx he
          exact hc ⟨x, hx, he⟩
        simp
        intro _
        refine ⟨m, ?_, rfl⟩
        rw [snapshotMerge_eq_append]
        exact List.mem_append.mpr (Or.inr hmemfilter)
  rw [hnil, List.append_nil]

/-- Claim C8 counterexample: the prior store is not always a prefix of the
store after an event. A token delta for an id already present updates that
entry in place, so the one-entry store holding m1 with content "A" is not a
prefix of the resulting store, which holds m1 with content "Ax". -/
theorem store_prefix_counterexample :
    sessionStep [⟨"m1", Content.str "A"⟩]
        (SessionEvent.langchain (LCEvent.streamEvt (some ⟨"m1", some (Content.str "x")⟩)))
      = [⟨"m1", Content.str "Ax"⟩]
    ∧ ¬ (([⟨"m1", Content.str "A"⟩] : List Message) <+: [⟨"m1", Content.str "Ax"⟩]) := by
  decide

/-- Claim C8 as amended: for every incoming event, the prior store's id
sequence is a prefix of the new store's id sequence, and the store's size
never decreases; no merge operation deletes or reorders an existing entry,
though a token delta may update the content of an existing entry in place
(so the prior store itself need not be a prefix). -/
theorem store_ids_monotonic (s : List Message) (e : SessionEvent) :
    (s.map (fun m => m.id)) <+: ((sessionStep s e).map (fun m => m.id))
    ∧ s.length ≤ (sessionStep s e).length := by
  have hmerge : ∀ l : List Message,
      (s.map (fun m => m.id)) <+: ((snapshotMerge s l).map (fun m => m.id)) := by
    intro l
    rw [snapshotMerge_eq_append, List.map_append]
    exact List.prefix_append _ _
  have main : (s.map (fun m => m.id)) <+: ((sessionStep s e).map (fun m => m.id)) := by
    cases e with
    | sync sm =>
        show (s.map (fun m => m.id)) <+: ((authoritativeSyncMerge s sm).map (fun m => m.id))
        rw [authSync_eq_snapshot]
        exact hmerge sm
    | langchain le =>
        cases le with
        | startEvt => exact List.prefix_refl _
        | unknownEvt => exact List.prefix_refl _
        | endEvt out =>
            cases out with
            | none => exact List.prefix_refl _
            | some l2 => exact hmerge l2
        | streamEvt ch =>
            show (s.map (fun m => m.id)) <+: ((onStreamEvent s ch).map (fun m => m.id))
            rcases onStreamEvent_cases s ch with h | ⟨x, c, _, h⟩
            · rw [h]
            · rw [h]
              rcases accumulateDelta_cases s x c with hacc | ⟨i, m0, hget, hacc⟩
              · rw [hacc, List.map_append]
                exact List.prefix_append _ _
              · rw [hacc, List.map_set]
                have hid0 : ({ m0 with content := mergeContent m0.content c } : Message).id
                    = m0.id := rfl
                have hideq : (s.map (fun m => m.id)).set i m0.id = s.map (fun m => m.id) := by
                  apply set_of_get?_eq
                  rw [get?_map_id, hget]
                  rfl
                rw [hid0, hideq]
  refine ⟨main, ?_⟩
  have hlen := main.length_le
  simpa using hlen

/-- Claim C9 counterexample: the claim's description of the common merge
function omits the truthy-id requirement. For a snapshot holding one message
whose id is empty, both code mergers add nothing, while the merge function
as the claim words it (filter only by id-not-already-present, then append)
would append that message. -/
theorem mergers_spec_counterexample :
    snapshotMerge [] [⟨"", Content.str "x"⟩] = []
    ∧ authoritativeSyncMerge [] [⟨"", Content.str "x"⟩] = []
    ∧ specDescribedMerge [] [⟨"", Content.str "x"⟩] = [⟨"", Content.str "x"⟩]
    ∧ ([] : List Message) ≠ [⟨"", Content.str "x"⟩] := by decide

/-- Claim C9 as amended: the Snapshot Merger and the Authoritative Sync
Merger implement the same merge function, namely: filter the incoming list
to messages with a truthy (non-empty) id not already present in the store,
and append the filtered list, order-preserved, to the end of the store. -/
theorem mergers_same_function (prev l : List Message) :
    snapshotMerge prev l = authoritativeSyncMerge prev l
    ∧ snapshotMerge prev l
        = prev ++ l.filter
            (fun msg => msg.id != "" && !((prev.map (fun m => m.id)).contains msg.id)) :=
  ⟨rfl, snapshotMerge_eq_append prev l⟩

lemma sessionStep_preserves_nonempty_ids (s : List Message) (e : SessionEvent)
    (h : ∀ m ∈ s, m.id ≠ "") : ∀ m ∈ sessionStep s e, m.id ≠ "" := by
  have hmerge : ∀ (l : List Message) (m : Message), m ∈ snapshotMerge s l → m.id ≠ "" := by
    intro l m hm
    rw [snapshotMerge_eq_append] at hm
    rcases List.mem_append.mp hm with h1 | h1
    · exact h m h1
    · exact mem_merge_filter_id_ne h1
  intro m hm
  cases e with
  | sync sm =>
      have hm2 : m ∈ snapshotMerge s sm := by
        rw [← authSync_eq_snapshot]
        exact hm
      exact hmerge sm m hm2
  | langchain le =>
      cases le with
      | startEvt => exact h m hm
      | unknownEvt => exact h m hm
      | endEvt out =>
          cases out with
          | none => exact h m hm
          | some l2 => exact hmerge l2 m hm
      | streamEvt ch =>
          rcases onStreamEvent_cases s ch with heq | ⟨x, c, hx, heq⟩
          · have hm2 : m ∈ onStreamEvent s ch := hm
            rw [heq] at hm2
            exact h m hm2
          · have hm2 : m ∈ accumulateDelta s x c := by
              have hm3 : m ∈ onStreamEvent s ch := hm
              rwa [heq] at hm3
            rcases accumulateDelta_cases s x c with hacc | ⟨i, m0, hget, hacc⟩
            · rw [hacc] at hm2
              rcases List.mem_append.mp hm2 with h1 | h1
              · exact h m h1
              · have hm4 : m = ⟨x, c⟩ := by simpa using h1
                rw [hm4]
                exact hx
            · rw [hacc] at hm2
              rcases List.mem_or_eq_of_mem_set hm2 with h1 | h1
              · exact h m h1
              · have hm0 : m0 ∈ s := List.get?_mem hget
                rw [h1]
                exact h m0 hm0

/-- Claim C10: both mergers only ever add messages with a truthy (non-empty)
id, and consequently every entry of a store built from the empty store by
any sequence of session events has a non-empty id. -/
theorem truthy_id_invariant (prev l : List Message) (m : Message)
    (evs : List SessionEvent) :
    (m ∈ snapshotMerge prev l → m ∉ prev → m.id ≠ "")
    ∧ (m ∈ authoritativeSyncMerge prev l → m ∉ prev → m.id ≠ "")
    ∧ (m ∈ List.foldl sessionStep [] evs → m.id ≠ "") := by
  have filt : m ∈ snapshotMerge prev l → m ∉ prev → m.id ≠ "" := by
    intro hmem hnot
    rw [snapshotMerge_eq_append] at hmem
    rcases List.mem_append.mp hmem with h1 | h1
    · exact absurd h1 hnot
    · exact mem_merge_filter_id_ne h1
  refine ⟨filt, ?_, ?_⟩
  · rw [authSync_eq_snapshot]
    exact filt
  · have general : ∀ (evs2 : List SessionEvent) (s : List Message),
        (∀ m2 ∈ s, m2.id ≠ "") → ∀ m2 ∈ List.foldl sessionStep s evs2, m2.id ≠ "" := by
      intro evs2
      induction evs2 with
      | nil =>
          intro s hs m2 hm2
          exact hs m2 (by simpa using hm2)
      | cons e rest ih =>
          intro s hs m2 hm2
          rw [List.foldl_cons] at hm2
          exact ih _ (sessionStep_preserves_nonempty_ids s e hs) m2 hm2
    intro hmem
    exact general evs [] (by simp) m hmem

/-- Witness for C10: the message with id "a" merged into the empty store is
newly added, and its id is non-empty. -/
theorem truthy_id_invariant_witness : ("a" : String) ≠ "" :=
  (truthy_id_invariant [] [⟨"a", Content.str "x"⟩] ⟨"a", Content.str "x"⟩ []).1
    (by decide) (by decide)

end AgentChat
